import Mathlib

/-!
Shallow embedding of the Phala mining pallet
(`pallets/phala/src/mining.rs`) and proofs about the claims of its
specification.

Conventions:
* Account ids and worker public keys are modelled as `Nat`.
* Substrate storage maps are modelled as association lists
  (`Map K V := List (K × V)`) with insert-overwrites semantics.
* `u32`/`u64`/`u128` arithmetic is modelled on `Nat` with an explicit
  `% 2^w` exactly where the Rust code can wrap or truncate
  (`as u32` casts, `u32` `+= 1` / `-= 1`).
* `U64F64` fixed-point numbers (the `fixed` crate) are modelled by their
  raw bit pattern: a value `x` is represented by the natural number
  `⌊x·2^64⌋ < 2^128`.  Multiplication and division truncate toward zero,
  exactly as the crate's do.
* Fallible Rust code becomes `Except Error _`; code paths that panic
  (`expect`, `unwrap`, fixed-point division by zero) become `none` in an
  `Option` wrapper.
-/

namespace PhalaMining

/-! ## Association-list maps (model of substrate `StorageMap`) -/

abbrev Map (K V : Type) := List (K × V)

namespace Map

variable {K V : Type} [DecidableEq K]

def lookup : Map K V → K → Option V
  | [], _ => none
  | (k', v) :: t, k => if k' = k then some v else lookup t k

/-- Removes every entry with key `k` (substrate `remove`). -/
def erase : Map K V → K → Map K V
  | [], _ => []
  | (k', v) :: t, k => if k' = k then erase t k else (k', v) :: erase t k

/-- Substrate `insert`: overwrites the value at key `k`. -/
def insert (m : Map K V) (k : K) (v : V) : Map K V :=
  (k, v) :: m.erase k

def keys (m : Map K V) : List K := m.map Prod.fst

@[simp] theorem lookup_nil (k : K) : (([] : Map K V).lookup k) = none := rfl

@[simp] theorem lookup_insert_self (m : Map K V) (k : K) (v : V) :
    (m.insert k v).lookup k = some v := by
  simp [insert, lookup]

theorem lookup_erase_self (m : Map K V) (k : K) :
    (m.erase k).lookup k = none := by
  induction m with
  | nil => rfl
  | cons hd t ih =>
    obtain ⟨k', v⟩ := hd
    by_cases h : k' = k <;> simp [erase, h, lookup, ih]

theorem lookup_erase_ne (m : Map K V) {k k' : K} (h : k ≠ k') :
    (m.erase k).lookup k' = m.lookup k' := by
  induction m with
  | nil => rfl
  | cons hd t ih =>
    obtain ⟨k'', v⟩ := hd
    by_cases hk : k'' = k
    · subst hk
      simp [erase, lookup, h, ih]
    · simp [erase, lookup, hk, ih]

theorem lookup_insert_ne (m : Map K V) {k k' : K} (v : V) (h : k ≠ k') :
    (m.insert k v).lookup k' = m.lookup k' := by
  simp [insert, lookup, h, lookup_erase_ne m h]

theorem lookup_none_of_not_mem_keys {m : Map K V} {k : K}
    (h : k ∉ m.keys) : m.lookup k = none := by
  induction m with
  | nil => rfl
  | cons hd t ih =>
    obtain ⟨k', v⟩ := hd
    simp only [keys, List.map_cons, List.mem_cons, not_or] at h
    have hne : k' ≠ k := fun hh => h.1 hh.symm
    simp [lookup, hne, ih (by simpa [keys] using h.2)]

theorem erase_eq_of_lookup_none {m : Map K V} {k : K}
    (h : m.lookup k = none) : m.erase k = m := by
  induction m with
  | nil => rfl
  | cons hd t ih =>
    obtain ⟨k', v⟩ := hd
    by_cases hk : k' = k
    · simp [lookup, hk] at h
    · simp [lookup, hk] at h
      simp [erase, hk, ih h]

theorem not_mem_keys_erase (m : Map K V) (k : K) : k ∉ (m.erase k).keys := by
  induction m with
  | nil => simp [erase, keys]
  | cons hd t ih =>
    obtain ⟨k', v⟩ := hd
    by_cases hk : k' = k
    · simpa [erase, hk] using ih
    · simp only [erase, hk, if_false, keys, List.map_cons, List.mem_cons, not_or]
      exact ⟨fun hh => hk hh.symm, ih⟩

theorem keys_erase_sublist (m : Map K V) (k : K) :
    (m.erase k).keys.Sublist m.keys := by
  induction m with
  | nil => simp [erase, keys]
  | cons hd t ih =>
    obtain ⟨k', v⟩ := hd
    by_cases hk : k' = k
    · simpa [erase, hk, keys] using ih.cons k'
    · simpa [erase, hk, keys] using ih.cons₂ k'

theorem nodup_keys_erase {m : Map K V} (k : K)
    (h : m.keys.Nodup) : (m.erase k).keys.Nodup :=
  (keys_erase_sublist m k).nodup h

theorem nodup_keys_insert {m : Map K V} (k : K) (v : V)
    (h : m.keys.Nodup) : (m.insert k v).keys.Nodup := by
  simp only [insert, keys, List.map_cons, List.nodup_cons]
  exact ⟨not_mem_keys_erase m k, nodup_keys_erase k h⟩

end Map

/-! ## Fixed-point arithmetic (`U64F64` raw bits, truncating) -/

/-- Raw bits of the fixed-point constant 1. -/
def fpOne : Nat := 2 ^ 64

/-- `U64F64` multiplication on raw bits: truncates toward zero. -/
def fpMul (a b : Nat) : Nat := a * b / 2 ^ 64

/-- `U64F64` division on raw bits: truncates toward zero. -/
def fpDiv (a b : Nat) : Nat := a * 2 ^ 64 / b

/-- Bitwise integer square root, valid for `n < 2^128`
(the algorithm used by the `fixed-sqrt` crate computes the truncated
integer square root of the raw bits). -/
def isqrtGo (n : Nat) : Nat → Nat → Nat
  | 0, r => r
  | k + 1, r =>
    let r' := r + 2 ^ k
    if r' * r' ≤ n then isqrtGo n k r' else isqrtGo n k r

def isqrt (n : Nat) : Nat := isqrtGo n 64 0

/-- `fixed-sqrt` on `U64F64`: the square root of raw bits `a` is the
truncated integer square root of `a`, shifted left by half the number of
fractional bits. -/
def fpSqrt (a : Nat) : Nat := isqrt a * 2 ^ 32

/-- Modelled from the spec: `balance_convert::FixedPointConvert` is not
under `src/`.  Balances carry 12 decimals (§8: `minimal_stake(p=1000) =
3162.277660146355` is the balance `3162_277660146355`), so converting a
balance to `U64F64` divides by `10^12`, truncating. -/
def toFixed (b : Nat) : Nat := b * 2 ^ 64 / 10 ^ 12

/-- Modelled from the spec: converting a `U64F64` back to a balance
multiplies by `10^12` and truncates. -/
def fromFixed (f : Nat) : Nat := f * 10 ^ 12 / 2 ^ 64

/-! ## Data model -/

inductive MinerState : Type
  | Ready
  | MiningIdle
  | MiningActive
  | MiningUnresponsive
  | MiningCoolingDown
  deriving DecidableEq, Repr

namespace MinerState

def can_unbind : MinerState → Bool
  | Ready => true
  | MiningCoolingDown => true
  | _ => false

def can_settle : MinerState → Bool
  | MiningIdle => true
  | MiningActive => true
  | MiningCoolingDown => true
  | MiningUnresponsive => true
  | Ready => false

end MinerState

structure Benchmark : Type where
  p_instant : Nat
  iterations : Nat
  mining_start_time : Nat
  updated_at : Nat
  deriving DecidableEq, Repr

/-- `Benchmark::update`.  Returns `none` for `Err(())`.
The Rust `(delta_iter * 6 / delta_ts) as u32` cast keeps only the low 32
bits of the `u64` quotient; `initial_score * 12` is a `u32`
multiplication (wrapping model), and `delta_iter * 6` a `u64` one. -/
def Benchmark.update (b : Benchmark) (updated_at iterations initial_score : Nat) :
    Option Benchmark :=
  if updated_at ≤ b.updated_at ∨ iterations ≤ b.iterations then
    none
  else
    let delta_iter := iterations - b.iterations
    let delta_ts := updated_at - b.updated_at
    let p_instant := (delta_iter * 6 % 2 ^ 64 / delta_ts) % 2 ^ 32
    some { b with
      updated_at := updated_at
      iterations := iterations
      p_instant := min p_instant (initial_score * 12 % 2 ^ 32 / 10) }

structure MinerStats : Type where
  total_reward : Nat
  deriving DecidableEq, Repr

/-- `MinerStats::on_reward`: adds the payout bits converted to balance. -/
def MinerStats.on_reward (s : MinerStats) (payout_bits : Nat) : MinerStats :=
  { s with total_reward := s.total_reward + fromFixed payout_bits }

structure MinerInfo : Type where
  state : MinerState
  ve : Nat
  v : Nat
  v_updated_at : Nat
  benchmark : Benchmark
  cool_down_start : Nat
  stats : MinerStats
  deriving DecidableEq, Repr

/-- Modelled from the spec: the worker registry (`registry::Workers`) is an
external collaborator (§6): `get(workerIdentity) -> { initialScore:
Option<u32>, confidenceLevel: u8, operatorAccount: Option<AccountId> }`. -/
structure WorkerInfo : Type where
  initial_score : Option Nat
  confidence_level : Nat
  deriving DecidableEq, Repr

/-- Modelled from the spec: `TokenomicParameters` lives in `phala_types`
(not under `src/`); all fields are raw `U64F64` bit patterns except
`heartbeat_window` (§3, §4.4). -/
structure TokenomicParams : Type where
  pha_rate : Nat
  rho : Nat
  budget_per_sec : Nat
  v_max : Nat
  cost_k : Nat
  cost_b : Nat
  slash_rate : Nat
  heartbeat_window : Nat
  rig_k : Nat
  rig_b : Nat
  re : Nat
  k : Nat
  kappa : Nat
  deriving DecidableEq, Repr

inductive Error : Type
  | BadSender
  | InvalidMessage
  | WorkerNotRegistered
  | GatekeeperNotRegistered
  | DuplicateBoundMiner
  | BenchmarkMissing
  | MinerNotFound
  | MinerNotBound
  | MinerNotReady
  | MinerNotMining
  | WorkerNotBound
  | CoolDownNotReady
  | InsufficientStake
  | TooMuchStake
  deriving DecidableEq, Repr

instance {ε α : Type} [DecidableEq ε] [DecidableEq α] :
    DecidableEq (Except ε α) := fun x y =>
  match x, y with
  | .ok a, .ok b =>
    if h : a = b then .isTrue (by rw [h])
    else .isFalse (by intro hc; cases hc; exact h rfl)
  | .error a, .error b =>
    if h : a = b then .isTrue (by rw [h])
    else .isFalse (by intro hc; cases hc; exact h rfl)
  | .ok _, .error _ => .isFalse (by intro hc; cases hc)
  | .error _, .ok _ => .isFalse (by intro hc; cases hc)

/-- The pallet's storage, plus the read-only external worker registry. -/
structure State : Type where
  workers : Map Nat WorkerInfo
  miners : Map Nat MinerInfo
  minerBindings : Map Nat Nat
  workerBindings : Map Nat Nat
  onlineMiners : Nat
  coolDownPeriod : Nat
  nextSessionId : Nat
  stakes : Map Nat Nat
  tokenomicParams : TokenomicParams
  deriving DecidableEq, Repr

/-! ## Tokenomic calculator (`Tokenomic<T>` methods, fixed-point) -/

namespace Tokenomic

/-- `Tokenomic::confidence_score`: lookup table for levels 1–5, raw bits
of `[fp!(1), fp!(1), fp!(1), fp!(0.8), fp!(0.7)]`; anything else maps to
the level-1 value. (`fp!(x)` rounds `x·2^64` to the nearest integer.) -/
def confidence_score (confidence_level : Nat) : Nat :=
  if 1 ≤ confidence_level ∧ confidence_level ≤ 5 then
    -- fp!(0.8) = round(0.8·2^64) = 14757395258967641293
    -- fp!(0.7) = round(0.7·2^64) = 12912720851596686131
    [fpOne, fpOne, fpOne, 14757395258967641293,
      12912720851596686131].getD (confidence_level - 1) fpOne
  else fpOne

/-- `Tokenomic::rig_cost`: `(rig_k·p + rig_b) / pha_rate` in `U64F64`. -/
def rig_cost (params : TokenomicParams) (p : Nat) : Nat :=
  fpDiv (fpMul params.rig_k (p * fpOne) + params.rig_b) params.pha_rate

/-- `Tokenomic::minimal_stake`: `k × sqrt(p)` converted to a balance. -/
def minimal_stake (params : TokenomicParams) (p : Nat) : Nat :=
  fromFixed (fpMul params.k (fpSqrt (p * fpOne)))

/-- `Tokenomic::ve`: `tweaked_re × (stake + rig_cost(p))` where
`tweaked_re = (re − 1) × confidence_score(level) + 1`.  Result in raw
`U64F64` bits. -/
def ve (params : TokenomicParams) (s p confidence_level : Nat) : Nat :=
  let score := confidence_score confidence_level
  let tweaked_re := fpMul (params.re - fpOne) score + fpOne
  fpMul tweaked_re (toFixed s + rig_cost params p)

/-- `Tokenomic::v_max` returns the raw parameter bits. -/
def v_max (params : TokenomicParams) : Nat := params.v_max

end Tokenomic

/-! ## Challenge-difficulty generator (`pow_target`) -/

/-- `pow_target(num_tx, num_workers, secs_per_block)` over `U32F32`
fixed point (raw values scaled by `2^32`) and `U256`.

Panicking paths return `none`:
* `3600 / secs_per_block = 0` makes the later fixed-point division a
  division by zero (and `secs_per_block = 0` already panics at
  `3600 / secs_per_block`);
* `num_workers ≥ 2^31` overflows the `U32F32` product
  `num_workers × 2`;
* a product not fitting `U256` panics in `U256::mul`.

The `checked_shl(24)` keeps the low 64 raw bits, and `to_num::<u32>()`
takes the integer part of the `U32F32`. -/
def pow_target (num_tx num_workers secs_per_block : Nat) : Option Nat :=
  if num_workers = 0 then some 0 else
  let d := 3600 / secs_per_block
  if d = 0 then none else
  if 2 ^ 31 ≤ num_workers then none else
  let max_tx := (num_workers * 2 ^ 33) * 2 ^ 32 / (d * 2 ^ 32)
  let target_tx := min (num_tx * 2 ^ 32) max_tx
  let raw2 := target_tx * 2 ^ 32 / (num_workers * 2 ^ 32)
  let frac := raw2 * 2 ^ 24 % 2 ^ 64 / 2 ^ 32
  let threshold := (2 ^ 256 - 1) / 2 ^ 24 * frac
  if 2 ^ 256 ≤ threshold then none else some threshold

/-! ## Pallet operations -/

namespace Pallet

/-- `ensure_worker_bound`. -/
def ensure_worker_bound (st : State) (pubkey : Nat) : Except Error Nat :=
  match st.workerBindings.lookup pubkey with
  | some a => .ok a
  | none => .error .WorkerNotBound

/-- `ensure_miner_bound`. -/
def ensure_miner_bound (st : State) (miner : Nat) : Except Error Nat :=
  match st.minerBindings.lookup miner with
  | some w => .ok w
  | none => .error .MinerNotBound

/-- `Pallet::bind`: all preconditions are checked before any write. -/
def bind (st : State) (miner pubkey now : Nat) : Except Error State :=
  match st.workers.lookup pubkey with
  | none => .error .WorkerNotRegistered
  | some worker =>
    if worker.initial_score = none then .error .BenchmarkMissing
    else if (st.minerBindings.lookup miner).isSome then .error .DuplicateBoundMiner
    else if (st.workerBindings.lookup pubkey).isSome then .error .DuplicateBoundMiner
    else .ok { st with
      minerBindings := st.minerBindings.insert miner pubkey
      workerBindings := st.workerBindings.insert pubkey miner
      miners := st.miners.insert miner
        { state := .Ready
          ve := 0
          v := 0
          v_updated_at := now
          benchmark :=
            { p_instant := 0, iterations := 0, mining_start_time := now, updated_at := 0 }
          cool_down_start := 0
          stats := { total_reward := 0 } } }

/-- `Pallet::stop_mining`.  The `u32` counter update `*v -= 1` is an
unchecked subtraction; it is modelled as the wrapping `u32` value
(the code comments `// v cannot be 0`). -/
def stop_mining (st : State) (miner now : Nat) : Except Error State :=
  match st.minerBindings.lookup miner with
  | none => .error .MinerNotBound
  | some _worker =>
    match st.miners.lookup miner with
    | none => .error .MinerNotFound
    | some info =>
      if info.state = .Ready ∨ info.state = .MiningCoolingDown then
        .error .MinerNotMining
      else
        .ok { st with
          miners := st.miners.insert miner
            { info with state := .MiningCoolingDown, cool_down_start := now }
          onlineMiners := (st.onlineMiners + (2 ^ 32 - 1)) % 2 ^ 32 }

/-- `Pallet::unbind_miner`.  A bound miner without a `Miners` record hits
`expect(..)`: `none`.  A state that cannot cleanly unbind first forces a
`stop_mining`. -/
def unbind_miner (st : State) (miner : Nat) (_notify : Bool) (now : Nat) :
    Option (Except Error State) :=
  match st.minerBindings.lookup miner with
  | none => some (.error .MinerNotBound)
  | some worker =>
    match st.miners.lookup miner with
    | none => none
    | some info =>
      let force := ¬ info.state.can_unbind
      let stopped : Except Error State :=
        if force then stop_mining st miner now else .ok st
      match stopped with
      | .error e => some (.error e)
      | .ok st' => some (.ok { st' with
          minerBindings := st'.minerBindings.erase miner
          workerBindings := st'.workerBindings.erase worker })

/-- `Pallet::start_mining`.  `Miners::get(&miner).unwrap()` and the
registry `expect` are panics (`none`).  `u32` increments wrap. -/
def start_mining (st : State) (miner stake now : Nat) :
    Option (Except Error State) :=
  match st.minerBindings.lookup miner with
  | none => some (.error .MinerNotFound)
  | some worker =>
    match st.miners.lookup miner with
    | none => none
    | some info =>
      if info.state ≠ .Ready then some (.error .MinerNotReady)
      else
        match st.workers.lookup worker with
        | none => none
        | some worker_info =>
          match worker_info.initial_score with
          | none => some (.error .BenchmarkMissing)
          | some p =>
            let params := st.tokenomicParams
            let min_stake := Tokenomic.minimal_stake params p
            if stake < min_stake then some (.error .InsufficientStake)
            else
              let ve := Tokenomic.ve params stake p worker_info.confidence_level
              if Tokenomic.v_max params < ve then some (.error .TooMuchStake)
              else some (.ok { st with
                stakes := st.stakes.insert miner stake
                miners := st.miners.insert miner
                  { info with state := .MiningIdle, ve := ve, v := ve, v_updated_at := now }
                onlineMiners := (st.onlineMiners + 1) % 2 ^ 32
                nextSessionId := (st.nextSessionId + 1) % 2 ^ 32 })

/-- `Pallet::can_reclaim`: the `u64` difference `now - cool_down_start`
is modelled with truncating `Nat` subtraction (equal to the Rust value
whenever `cool_down_start ≤ now`). -/
def can_reclaim (st : State) (info : MinerInfo) (now : Nat) : Bool :=
  info.state = .MiningCoolingDown ∧ st.coolDownPeriod ≤ now - info.cool_down_start

/-- `Pallet::reclaim`.  Returns the new state together with the
`(orig_stake, returned, slashed)` amounts passed to `OnReclaim` and the
`MinerReclaimed` event.  A zero (or overflowing) fixed-point division
`v / ve` panics: `none`. -/
def reclaim (st : State) (miner now : Nat) :
    Option (Except Error (State × Nat × Nat × Nat)) :=
  match st.miners.lookup miner with
  | none => some (.error .MinerNotFound)
  | some info =>
    if ¬ can_reclaim st info now then some (.error .CoolDownNotReady)
    else
      let st1 := { st with
        miners := st.miners.insert miner
          { info with state := .Ready, cool_down_start := 0 } }
      if info.ve = 0 ∨ 2 ^ 128 ≤ fpDiv info.v info.ve then none
      else
        let return_rate := min (fpDiv info.v info.ve) fpOne
        let orig_stake := (st1.stakes.lookup miner).getD 0
        let returned := fromFixed (fpMul return_rate (toFixed orig_stake))
        let slashed := orig_stake - returned
        some (.ok ({ st1 with stakes := st1.stakes.erase miner },
          orig_stake, returned, slashed))

/-- `Pallet::on_mining_message_received` for a
`MiningReportEvent::Heartbeat { iterations, .. }` sent by
`MessageOrigin::Worker(worker)`.  The three `expect`s (missing miner
record, missing registry entry, missing initial score) and the
`expect` on a rejected `Benchmark::update` panic: `none`. -/
def on_mining_message_received (st : State) (worker iterations now : Nat) :
    Option (Except Error State) :=
  match ensure_worker_bound st worker with
  | .error e => some (.error e)
  | .ok miner =>
    match st.miners.lookup miner with
    | none => none
    | some info =>
      match st.workers.lookup worker with
      | none => none
      | some worker_info =>
        match worker_info.initial_score with
        | none => none
        | some initial_score =>
          match info.benchmark.update now iterations initial_score with
          | none => none
          | some bench =>
            some (.ok { st with
              miners := st.miners.insert miner { info with benchmark := bench } })

/-! ### Gatekeeper settlement batches (`on_gk_message_received`) -/

structure SettleInfo : Type where
  pubkey : Nat
  v : Nat
  payout : Nat
  deriving DecidableEq, Repr

structure MiningInfoUpdateEvent : Type where
  offline : List Nat
  recovered_to_online : List Nat
  settle : List SettleInfo
  deriving DecidableEq, Repr

def MiningInfoUpdateEvent.is_empty (ev : MiningInfoUpdateEvent) : Bool :=
  ev.offline.isEmpty && ev.recovered_to_online.isEmpty && ev.settle.isEmpty

/-- The `offline` loop: a bound worker whose miner record is missing hits
`ok_or(MinerNotFound)?`, the spec's tier-3 invariant-violation abort
(`none`); an unbound worker is skipped. -/
def processOffline (st : State) : List Nat → Option State
  | [] => some st
  | worker :: rest =>
    match st.workerBindings.lookup worker with
    | none => processOffline st rest
    | some account =>
      match st.miners.lookup account with
      | none => none
      | some info =>
        let info' := { info with state := MinerState.MiningUnresponsive }
        processOffline { st with miners := st.miners.insert account info' } rest

/-- The `recovered_to_online` loop. -/
def processRecovered (st : State) : List Nat → Option State
  | [] => some st
  | worker :: rest =>
    match st.workerBindings.lookup worker with
    | none => processRecovered st rest
    | some account =>
      match st.miners.lookup account with
      | none => none
      | some info =>
        let info' := { info with state := MinerState.MiningIdle }
        processRecovered { st with miners := st.miners.insert account info' } rest

/-- The `settle` loop (`can_settle` is only debug-asserted, not
enforced). -/
def processSettle (st : State) (now : Nat) : List SettleInfo → Option State
  | [] => some st
  | s :: rest =>
    match st.workerBindings.lookup s.pubkey with
    | none => processSettle st now rest
    | some account =>
      match st.miners.lookup account with
      | none => none
      | some info =>
        let info' := { info with
          v := s.v
          v_updated_at := now
          stats := info.stats.on_reward s.payout }
        processSettle { st with miners := st.miners.insert account info' } now rest

/-- `Pallet::on_gk_message_received` for a message whose sender is the
gatekeeper (a non-gatekeeper sender is rejected with `BadSender` before
any processing). -/
def on_gk_message_received (st : State) (ev : MiningInfoUpdateEvent) (now : Nat) :
    Option State :=
  if ev.is_empty then some st
  else
    match processOffline st ev.offline with
    | none => none
    | some st1 =>
      match processRecovered st1 ev.recovered_to_online with
      | none => none
      | some st2 => processSettle st2 now ev.settle

end Pallet

/-! ## Command sequences and reachability -/

inductive Cmd : Type
  | bind (miner pubkey now : Nat)
  | unbind (miner : Nat) (notify : Bool) (now : Nat)
  | start (miner stake now : Nat)
  | stop (miner now : Nat)
  | reclaim (miner now : Nat)
  | gk (ev : Pallet.MiningInfoUpdateEvent) (now : Nat)
  | heartbeat (worker iterations now : Nat)

/-- A `DispatchResult` error leaves the storage unchanged (every
operation validates before writing); a panic (`none`) aborts. -/
def exceptState (st : State) : Except Error State → State
  | .ok st' => st'
  | .error _ => st

def step (st : State) : Cmd → Option State
  | .bind m w now => some (exceptState st (Pallet.bind st m w now))
  | .unbind m notify now => (Pallet.unbind_miner st m notify now).map (exceptState st)
  | .start m stake now => (Pallet.start_mining st m stake now).map (exceptState st)
  | .stop m now => some (exceptState st (Pallet.stop_mining st m now))
  | .reclaim m now =>
    (Pallet.reclaim st m now).map fun r =>
      match r with
      | .ok (st', _, _, _) => st'
      | .error _ => st
  | .gk ev now => Pallet.on_gk_message_received st ev now
  | .heartbeat w iters now =>
    (Pallet.on_mining_message_received st w iters now).map (exceptState st)

def run (st : State) : List Cmd → Option State
  | [] => some st
  | c :: cs =>
    match step st c with
    | none => none
    | some st' => run st' cs

/-- Genesis state: empty storage, `OnlineMiners = 0`, `NextSessionId = 0`,
a configured cooldown period and tokenomic parameters, and an arbitrary
(read-only) worker registry. -/
def initState (workers : Map Nat WorkerInfo) (coolDownPeriod : Nat)
    (params : TokenomicParams) : State :=
  { workers := workers
    miners := []
    minerBindings := []
    workerBindings := []
    onlineMiners := 0
    coolDownPeriod := coolDownPeriod
    nextSessionId := 0
    stakes := []
    tokenomicParams := params }

/-- Genesis tokenomic parameters of `GenesisConfig::default()`
(raw `U64F64` bits; `fp!(x)` rounds `x·2^64` to nearest, and the
fixed-point-by-integer divisions truncate). -/
def defaultParams : TokenomicParams :=
  { pha_rate := fpOne                                    -- fp!(1)
    rho := (100000099985 * 2 ^ 64 * 2 + 10 ^ 11) / (2 * 10 ^ 11)  -- fp!(1.00000099985)
    budget_per_sec := 720000 * 2 ^ 64 / 24 / 3600        -- fp!(720000)/24/3600
    v_max := 30000 * 2 ^ 64                              -- fp!(30000)
    cost_k := ((415625 * 2 ^ 64 * 2 + 10 ^ 7) / (2 * 10 ^ 7)) / 3600 / 24 / 365
    cost_b := ((8859375 * 2 ^ 64 * 2 + 10 ^ 5) / (2 * 10 ^ 5)) / 3600 / 24 / 365
    slash_rate := ((2 ^ 64 * 2 + 10 ^ 3) / (2 * 10 ^ 3)) / 300  -- fp!(0.001)/300
    heartbeat_window := 10
    rig_k := (3 * 2 ^ 64 * 2 + 10) / (2 * 10)            -- fp!(0.3)
    rig_b := 0                                           -- fp!(0)
    re := 3 * 2 ^ 63                                     -- fp!(1.5)
    k := 100 * 2 ^ 64                                    -- fp!(100)
    kappa := fpOne }                                     -- fp!(1)

/-- Is a miner state counted by `OnlineMiners`? -/
def isMining : MinerState → Bool
  | .MiningIdle => true
  | .MiningActive => true
  | .MiningUnresponsive => true
  | _ => false

/-- The number of miner records in a mining state. -/
def countMining (m : Map Nat MinerInfo) : Nat :=
  (m.filter fun kv => isMining kv.2.state).length

/-! ## Counting lemmas for the OnlineMiners invariant -/

theorem countMining_cons (k : Nat) (v : MinerInfo) (m : Map Nat MinerInfo) :
    countMining ((k, v) :: m) = (if isMining v.state then 1 else 0) + countMining m := by
  by_cases h : isMining v.state <;> simp [countMining, List.filter_cons, h] <;> omega

theorem countMining_insert (m : Map Nat MinerInfo) (k : Nat) (v : MinerInfo) :
    countMining (m.insert k v) =
      (if isMining v.state then 1 else 0) + countMining (m.erase k) :=
  countMining_cons ..

theorem countMining_erase {m : Map Nat MinerInfo} {k : Nat} {info : MinerInfo}
    (hnd : m.keys.Nodup) (h : m.lookup k = some info) :
    countMining m = (if isMining info.state then 1 else 0) + countMining (m.erase k) := by
  induction m with
  | nil => cases h
  | cons hd t ih =>
    obtain ⟨k', v⟩ := hd
    simp only [Map.keys, List.map_cons, List.nodup_cons] at hnd
    by_cases hk : k' = k
    · subst hk
      simp only [Map.lookup, if_pos rfl] at h
      injection h with h
      subst h
      have ht : Map.lookup t k' = none :=
        Map.lookup_none_of_not_mem_keys hnd.1
      rw [Map.erase, if_pos rfl, Map.erase_eq_of_lookup_none ht, countMining_cons]
    · simp only [Map.lookup, if_neg hk] at h
      rw [Map.erase, if_neg hk, countMining_cons, countMining_cons,
        ih hnd.2 h]
      omega

theorem isMining_iff (s : MinerState) :
    isMining s = true ↔ s ≠ .Ready ∧ s ≠ .MiningCoolingDown := by
  cases s <;> simp [isMining]

/-! ## The restricted reachability relation and the inductive invariant -/

/-- A worker is "settlement-safe" in a state: if it is bound, its
miner's record exists and is in a mining state.  The gatekeeper is
trusted to report `offline`/`recovered_to_online` only for workers it
tracks as mining. -/
def GoodW (st : State) (w : Nat) : Prop :=
  ∀ a, st.workerBindings.lookup w = some a →
    ∃ info, st.miners.lookup a = some info ∧ isMining info.state = true

/-- The trust restriction on commands: a gatekeeper batch only names
settlement-safe workers in its `offline` and `recovered_to_online`
lists.  All other operations are unrestricted. -/
def GoodCmd (st : State) : Cmd → Prop
  | .gk ev _ => ∀ w ∈ ev.offline ++ ev.recovered_to_online, GoodW st w
  | _ => True

/-- The inductive invariant: miner keys are distinct, the two binding
tables are mutual inverses, a record of an unbound miner is never in a
mining state, and `OnlineMiners` is the number of mining-state records
(as a wrapping `u32`). -/
structure Inv (st : State) : Prop where
  nodup : st.miners.keys.Nodup
  bij1 : ∀ w a, st.workerBindings.lookup w = some a →
    st.minerBindings.lookup a = some w
  bij2 : ∀ a w, st.minerBindings.lookup a = some w →
    st.workerBindings.lookup w = some a
  unbound : ∀ a info, st.miners.lookup a = some info →
    st.minerBindings.lookup a = none → isMining info.state = false
  count : st.onlineMiners = countMining st.miners % 2 ^ 32

/-- States reachable from genesis by operations satisfying the
gatekeeper trust restriction. -/
inductive ReachGood : State → Prop
  | init : ∀ workers coolDownPeriod params,
      ReachGood (initState workers coolDownPeriod params)
  | next : ∀ st c st', ReachGood st → GoodCmd st c → step st c = some st' →
      ReachGood st'

theorem Inv_init (workers : Map Nat WorkerInfo) (cdp : Nat)
    (params : TokenomicParams) : Inv (initState workers cdp params) := by
  refine ⟨?_, ?_, ?_, ?_, ?_⟩ <;> first
    | exact List.nodup_nil
    | rfl
    | (intro a b h; cases h)
    | (intro a b h h'; cases h)

theorem Inv_bind {st st' : State} {m w now : Nat} (hInv : Inv st)
    (h : Pallet.bind st m w now = .ok st') : Inv st' := by
  unfold Pallet.bind at h
  split at h
  · cases h
  split at h
  · cases h
  split at h
  · cases h
  split at h
  · cases h
  cases h
  rename_i wi hw hs hm hwb
  have hm' : st.minerBindings.lookup m = none :=
    Option.not_isSome_iff_eq_none.mp hm
  have hwb' : st.workerBindings.lookup w = none :=
    Option.not_isSome_iff_eq_none.mp hwb
  refine ⟨Map.nodup_keys_insert _ _ hInv.nodup, ?_, ?_, ?_, ?_⟩
  · intro w' a h'
    by_cases hww : w = w'
    · subst hww
      rw [Map.lookup_insert_self] at h'
      injection h' with h'
      subst h'
      exact Map.lookup_insert_self ..
    · rw [Map.lookup_insert_ne _ _ hww] at h'
      have hb := hInv.bij1 w' a h'
      have ham : m ≠ a := by
        intro he
        rw [← he, hm'] at hb
        cases hb
      rw [Map.lookup_insert_ne _ _ ham]
      exact hb
  · intro a w' h'
    by_cases hma : m = a
    · subst hma
      rw [Map.lookup_insert_self] at h'
      injection h' with h'
      subst h'
      exact Map.lookup_insert_self ..
    · rw [Map.lookup_insert_ne _ _ hma] at h'
      have hb := hInv.bij2 a w' h'
      have hww : w ≠ w' := by
        intro he
        rw [← he, hwb'] at hb
        cases hb
      rw [Map.lookup_insert_ne _ _ hww]
      exact hb
  · intro a info ha hnone
    by_cases hma : m = a
    · subst hma
      rw [Map.lookup_insert_self] at hnone
      cases hnone
    · rw [Map.lookup_insert_ne _ _ hma] at ha hnone
      exact hInv.unbound a info ha hnone
  · dsimp only
    have hins := countMining_insert st.miners m
      { state := .Ready, ve := 0, v := 0, v_updated_at := now
        benchmark := ⟨0, 0, now, 0⟩, cool_down_start := 0
        stats := ⟨0⟩ }
    simp [isMining] at hins
    rcases hml : st.miners.lookup m with _ | info0
    · rw [Map.erase_eq_of_lookup_none hml] at hins
      rw [hins]
      exact hInv.count
    · have hnm := hInv.unbound m info0 hml hm'
      have herase := countMining_erase hInv.nodup hml
      rw [hnm] at herase
      simp at herase
      rw [hins, ← herase]
      exact hInv.count

theorem Inv_stop {st st' : State} {m now : Nat} (hInv : Inv st)
    (h : Pallet.stop_mining st m now = .ok st') : Inv st' := by
  unfold Pallet.stop_mining at h
  split at h
  · cases h
  split at h
  · cases h
  split at h
  · cases h
  cases h
  rename_i hb hscr info hr hs
  push_neg at hs
  have hmine : isMining info.state = true := (isMining_iff _).mpr hs
  have herase := countMining_erase hInv.nodup hr
  rw [hmine, if_pos rfl] at herase
  refine ⟨Map.nodup_keys_insert _ _ hInv.nodup, hInv.bij1, hInv.bij2, ?_, ?_⟩
  · intro a info' ha hnone
    by_cases hma : m = a
    · subst hma
      rw [hb] at hnone
      cases hnone
    · rw [Map.lookup_insert_ne _ _ hma] at ha
      exact hInv.unbound a info' ha hnone
  · dsimp only
    have hins := countMining_insert st.miners m
      { info with state := .MiningCoolingDown, cool_down_start := now }
    simp [isMining] at hins
    rw [hins]
    have hc := hInv.count
    omega

theorem Inv_start {st st' : State} {m stake now : Nat} (hInv : Inv st)
    (h : Pallet.start_mining st m stake now = some (.ok st')) : Inv st' := by
  rcases hb : st.minerBindings.lookup m with _ | w
  · simp [Pallet.start_mining, hb] at h
  rcases hr : st.miners.lookup m with _ | info
  · simp [Pallet.start_mining, hb, hr] at h
  by_cases hready : info.state = .Ready
  case neg => simp [Pallet.start_mining, hb, hr, hready] at h
  rcases hw : st.workers.lookup w with _ | winfo
  · simp [Pallet.start_mining, hb, hr, hready, hw] at h
  rcases hscore : winfo.initial_score with _ | p
  · simp [Pallet.start_mining, hb, hr, hready, hw, hscore] at h
  by_cases hstake : stake < Tokenomic.minimal_stake st.tokenomicParams p
  · simp [Pallet.start_mining, hb, hr, hready, hw, hscore, hstake] at h
  by_cases hv : Tokenomic.v_max st.tokenomicParams <
    Tokenomic.ve st.tokenomicParams stake p winfo.confidence_level
  · simp [Pallet.start_mining, hb, hr, hready, hw, hscore, hstake, hv] at h
  simp [Pallet.start_mining, hb, hr, hready, hw, hscore, hstake, hv] at h
  subst h
  refine ⟨Map.nodup_keys_insert _ _ hInv.nodup, hInv.bij1, hInv.bij2, ?_, ?_⟩
  · intro a info' ha hnone
    by_cases hma : m = a
    · subst hma
      rw [hb] at hnone
      cases hnone
    · rw [Map.lookup_insert_ne _ _ hma] at ha
      exact hInv.unbound a info' ha hnone
  · dsimp only
    rw [countMining_insert]
    have hnm : isMining info.state = false := by rw [hready]; rfl
    have herase := countMining_erase hInv.nodup hr
    rw [hnm] at herase
    simp at herase
    simp [isMining]
    have hc := hInv.count
    omega

theorem Inv_reclaim {st st' : State} {m now orig ret sl : Nat} (hInv : Inv st)
    (h : Pallet.reclaim st m now = some (.ok (st', orig, ret, sl))) : Inv st' := by
  rcases hr : st.miners.lookup m with _ | info
  · simp [Pallet.reclaim, hr] at h
  by_cases hcan : Pallet.can_reclaim st info now
  case neg => simp [Pallet.reclaim, hr, hcan] at h
  simp [Pallet.reclaim, hr, hcan] at h
  obtain ⟨-, hst, -, -, -⟩ := h
  subst hst
  have hstate : info.state = .MiningCoolingDown := by
    simp [Pallet.can_reclaim] at hcan
    exact hcan.1
  refine ⟨Map.nodup_keys_insert _ _ hInv.nodup, hInv.bij1, hInv.bij2, ?_, ?_⟩
  · intro a info' ha hnone
    by_cases hma : m = a
    · subst hma
      rw [Map.lookup_insert_self] at ha
      injection ha with ha
      subst ha
      rfl
    · rw [Map.lookup_insert_ne _ _ hma] at ha
      exact hInv.unbound a info' ha hnone
  · dsimp only
    rw [countMining_insert]
    have hnm : isMining info.state = false := by rw [hstate]; rfl
    have herase := countMining_erase hInv.nodup hr
    rw [hnm] at herase
    simp at herase
    simp [isMining]
    rw [← herase]
    exact hInv.count

theorem Inv_heartbeat {st st' : State} {w iters now : Nat} (hInv : Inv st)
    (h : Pallet.on_mining_message_received st w iters now = some (.ok st')) :
    Inv st' := by
  rcases hwb : st.workerBindings.lookup w with _ | miner
  · simp [Pallet.on_mining_message_received, Pallet.ensure_worker_bound, hwb] at h
  rcases hr : st.miners.lookup miner with _ | info
  · simp [Pallet.on_mining_message_received, Pallet.ensure_worker_bound, hwb, hr] at h
  rcases hreg : st.workers.lookup w with _ | winfo
  · simp [Pallet.on_mining_message_received, Pallet.ensure_worker_bound, hwb, hr,
      hreg] at h
  rcases hscore : winfo.initial_score with _ | sc
  · simp [Pallet.on_mining_message_received, Pallet.ensure_worker_bound, hwb, hr,
      hreg, hscore] at h
  rcases hbu : info.benchmark.update now iters sc with _ | bench
  · simp [Pallet.on_mining_message_received, Pallet.ensure_worker_bound, hwb, hr,
      hreg, hscore, hbu] at h
  simp [Pallet.on_mining_message_received, Pallet.ensure_worker_bound, hwb, hr,
    hreg, hscore, hbu] at h
  subst h
  refine ⟨Map.nodup_keys_insert _ _ hInv.nodup, hInv.bij1, hInv.bij2, ?_, ?_⟩
  · intro a info' ha hnone
    by_cases hma : miner = a
    · subst hma
      rw [hInv.bij1 w miner hwb] at hnone
      cases hnone
    · rw [Map.lookup_insert_ne _ _ hma] at ha
      exact hInv.unbound a info' ha hnone
  · dsimp only
    rw [countMining_insert]
    have herase := countMining_erase hInv.nodup hr
    rw [← herase]
    exact hInv.count

theorem can_unbind_not_mining {s : MinerState} (h : s.can_unbind = true) :
    isMining s = false := by
  cases s <;> first | rfl | cases h

/-- Removing a consistent binding pair preserves the invariant, provided
the unbound miner's record is not in a mining state. -/
theorem Inv_erase_bindings {st : State} {m w : Nat} (hInv : Inv st)
    (hb : st.minerBindings.lookup m = some w)
    (hnm : ∀ info, st.miners.lookup m = some info → isMining info.state = false) :
    Inv { st with minerBindings := st.minerBindings.erase m
                  workerBindings := st.workerBindings.erase w } := by
  refine ⟨hInv.nodup, ?_, ?_, ?_, hInv.count⟩
  · intro w' a h'
    by_cases hww : w = w'
    · subst hww
      rw [Map.lookup_erase_self] at h'
      cases h'
    · rw [Map.lookup_erase_ne _ hww] at h'
      have hb2 := hInv.bij1 w' a h'
      have ham : m ≠ a := by
        intro he
        subst he
        injection (hb.symm.trans hb2) with he2
        exact hww he2
      rw [Map.lookup_erase_ne _ ham]
      exact hb2
  · intro a w' h'
    by_cases hma : m = a
    · subst hma
      rw [Map.lookup_erase_self] at h'
      cases h'
    · rw [Map.lookup_erase_ne _ hma] at h'
      have hb2 := hInv.bij2 a w' h'
      have hww : w ≠ w' := by
        intro he
        subst he
        have h3 := hInv.bij2 m w hb
        rw [h3] at hb2
        injection hb2 with he2
        exact hma he2
      rw [Map.lookup_erase_ne _ hww]
      exact hb2
  · intro a info ha hnone
    by_cases hma : m = a
    · subst hma
      exact hnm info ha
    · rw [Map.lookup_erase_ne _ hma] at hnone
      exact hInv.unbound a info ha hnone

/-- `stop_mining` never touches the binding tables, and on success the
stopped miner's record is left in a (non-mining) cooling-down state. -/
theorem stop_mining_bindings {st st' : State} {m now : Nat}
    (h : Pallet.stop_mining st m now = .ok st') :
    st'.minerBindings = st.minerBindings
    ∧ st'.workerBindings = st.workerBindings
    ∧ (∀ info, st'.miners.lookup m = some info → isMining info.state = false) := by
  rcases hb : st.minerBindings.lookup m with _ | w
  · simp [Pallet.stop_mining, hb] at h
  rcases hr : st.miners.lookup m with _ | info
  · simp [Pallet.stop_mining, hb, hr] at h
  by_cases hs : info.state = .Ready ∨ info.state = .MiningCoolingDown
  · simp [Pallet.stop_mining, hb, hr, hs] at h
  simp [Pallet.stop_mining, hb, hr, hs] at h
  subst h
  refine ⟨rfl, rfl, ?_⟩
  intro info' ha
  have : (st.miners.insert m
      { info with state := .MiningCoolingDown, cool_down_start := now }).lookup m =
      some { info with state := .MiningCoolingDown, cool_down_start := now } :=
    Map.lookup_insert_self ..
  rw [this] at ha
  injection ha with ha
  subst ha
  rfl

theorem Inv_unbind {st st' : State} {m : Nat} {notify : Bool} {now : Nat}
    (hInv : Inv st)
    (h : Pallet.unbind_miner st m notify now = some (.ok st')) : Inv st' := by
  rcases hb : st.minerBindings.lookup m with _ | w
  · simp [Pallet.unbind_miner, hb] at h
  rcases hr : st.miners.lookup m with _ | info
  · simp [Pallet.unbind_miner, hb, hr] at h
  by_cases hforce : info.state.can_unbind
  · simp [Pallet.unbind_miner, hb, hr, hforce] at h
    subst h
    refine Inv_erase_bindings hInv hb ?_
    intro info' ha
    rw [hr] at ha
    injection ha with ha
    subst ha
    exact can_unbind_not_mining hforce
  · rcases hstop : Pallet.stop_mining st m now with e | stM
    · simp [Pallet.unbind_miner, hb, hr, hforce, hstop] at h
    · simp [Pallet.unbind_miner, hb, hr, hforce, hstop] at h
      subst h
      obtain ⟨hmb, hwb, hrec⟩ := stop_mining_bindings hstop
      have hI2 := Inv_stop hInv hstop
      have hb2 : stM.minerBindings.lookup m = some w := by rw [hmb]; exact hb
      exact Inv_erase_bindings hI2 hb2 hrec

/-! ### Gatekeeper batch processing preserves the invariant -/

theorem Inv_processOffline (ws : List Nat) :
    ∀ st st' : State, Inv st → (∀ w ∈ ws, GoodW st w) →
    Pallet.processOffline st ws = some st' →
    Inv st' ∧ (∀ w, GoodW st w → GoodW st' w) := by
  induction ws with
  | nil =>
    intro st st' hInv _ h
    injection h with h
    subst h
    exact ⟨hInv, fun _ hw => hw⟩
  | cons w rest ih =>
    intro st st' hInv hg h
    rcases hwb : st.workerBindings.lookup w with _ | a
    · simp only [Pallet.processOffline, hwb] at h
      exact ih st st' hInv (fun w' hw' => hg w' (List.mem_cons_of_mem _ hw')) h
    · obtain ⟨info, hinfo, hmine⟩ := hg w (List.mem_cons_self ..) a hwb
      simp only [Pallet.processOffline, hwb, hinfo] at h
      have hInvMid : Inv { st with
          miners := st.miners.insert a
            (MinerInfo.mk .MiningUnresponsive info.ve info.v info.v_updated_at
              info.benchmark info.cool_down_start info.stats) } := by
        refine ⟨Map.nodup_keys_insert _ _ hInv.nodup, hInv.bij1, hInv.bij2, ?_, ?_⟩
        · intro a' info' ha' hnone
          by_cases haa : a = a'
          · subst haa
            rw [hInv.bij1 w a hwb] at hnone
            cases hnone
          · rw [Map.lookup_insert_ne _ _ haa] at ha'
            exact hInv.unbound a' info' ha' hnone
        · dsimp only
          rw [countMining_insert]
          have herase := countMining_erase hInv.nodup hinfo
          rw [hmine, if_pos rfl] at herase
          simp [isMining]
          rw [← herase]
          exact hInv.count
      have htrans : ∀ w', GoodW st w' → GoodW
          { st with
            miners := st.miners.insert a
              (MinerInfo.mk .MiningUnresponsive info.ve info.v info.v_updated_at
                info.benchmark info.cool_down_start info.stats) } w' := by
        intro w' hgw' a' hwba'
        obtain ⟨info', hinfo', hmine'⟩ := hgw' a' hwba'
        by_cases haa : a = a'
        · subst haa
          exact ⟨_, Map.lookup_insert_self .., rfl⟩
        · exact ⟨info', by
            show (st.miners.insert a _).lookup a' = _
            rw [Map.lookup_insert_ne _ _ haa]
            exact hinfo', hmine'⟩
      obtain ⟨hI, htr⟩ := ih _ st' hInvMid
        (fun w' hw' => htrans w' (hg w' (List.mem_cons_of_mem _ hw'))) h
      exact ⟨hI, fun w' hw' => htr w' (htrans w' hw')⟩

theorem Inv_processRecovered (ws : List Nat) :
    ∀ st st' : State, Inv st → (∀ w ∈ ws, GoodW st w) →
    Pallet.processRecovered st ws = some st' →
    Inv st' ∧ (∀ w, GoodW st w → GoodW st' w) := by
  induction ws with
  | nil =>
    intro st st' hInv _ h
    injection h with h
    subst h
    exact ⟨hInv, fun _ hw => hw⟩
  | cons w rest ih =>
    intro st st' hInv hg h
    rcases hwb : st.workerBindings.lookup w with _ | a
    · simp only [Pallet.processRecovered, hwb] at h
      exact ih st st' hInv (fun w' hw' => hg w' (List.mem_cons_of_mem _ hw')) h
    · obtain ⟨info, hinfo, hmine⟩ := hg w (List.mem_cons_self ..) a hwb
      simp only [Pallet.processRecovered, hwb, hinfo] at h
      have hInvMid : Inv { st with
          miners := st.miners.insert a
            (MinerInfo.mk .MiningIdle info.ve info.v info.v_updated_at
              info.benchmark info.cool_down_start info.stats) } := by
        refine ⟨Map.nodup_keys_insert _ _ hInv.nodup, hInv.bij1, hInv.bij2, ?_, ?_⟩
        · intro a' info' ha' hnone
          by_cases haa : a = a'
          · subst haa
            rw [hInv.bij1 w a hwb] at hnone
            cases hnone
          · rw [Map.lookup_insert_ne _ _ haa] at ha'
            exact hInv.unbound a' info' ha' hnone
        · dsimp only
          rw [countMining_insert]
          have herase := countMining_erase hInv.nodup hinfo
          rw [hmine, if_pos rfl] at herase
          simp [isMining]
          rw [← herase]
          exact hInv.count
      have htrans : ∀ w', GoodW st w' → GoodW
          { st with
            miners := st.miners.insert a
              (MinerInfo.mk .MiningIdle info.ve info.v info.v_updated_at
                info.benchmark info.cool_down_start info.stats) } w' := by
        intro w' hgw' a' hwba'
        obtain ⟨info', hinfo', hmine'⟩ := hgw' a' hwba'
        by_cases haa : a = a'
        · subst haa
          exact ⟨_, Map.lookup_insert_self .., rfl⟩
        · exact ⟨info', by
            show (st.miners.insert a _).lookup a' = _
            rw [Map.lookup_insert_ne _ _ haa]
            exact hinfo', hmine'⟩
      obtain ⟨hI, htr⟩ := ih _ st' hInvMid
        (fun w' hw' => htrans w' (hg w' (List.mem_cons_of_mem _ hw'))) h
      exact ⟨hI, fun w' hw' => htr w' (htrans w' hw')⟩

theorem Inv_processSettle (ss : List Pallet.SettleInfo) :
    ∀ (st st' : State) (now : Nat), Inv st →
    Pallet.processSettle st now ss = some st' → Inv st' := by
  induction ss with
  | nil =>
    intro st st' now hInv h
    injection h with h
    subst h
    exact hInv
  | cons s rest ih =>
    intro st st' now hInv h
    rcases hwb : st.workerBindings.lookup s.pubkey with _ | a
    · simp only [Pallet.processSettle, hwb] at h
      exact ih st st' now hInv h
    · rcases hinfo : st.miners.lookup a with _ | info
      · simp only [Pallet.processSettle, hwb, hinfo] at h
        cases h
      · simp only [Pallet.processSettle, hwb, hinfo] at h
        refine ih _ st' now ?_ h
        refine ⟨Map.nodup_keys_insert _ _ hInv.nodup, hInv.bij1, hInv.bij2, ?_, ?_⟩
        · intro a' info' ha' hnone
          by_cases haa : a = a'
          · subst haa
            rw [hInv.bij1 s.pubkey a hwb] at hnone
            cases hnone
          · rw [Map.lookup_insert_ne _ _ haa] at ha'
            exact hInv.unbound a' info' ha' hnone
        · dsimp only
          rw [countMining_insert]
          have herase := countMining_erase hInv.nodup hinfo
          rw [← herase]
          exact hInv.count

theorem Inv_gk {st st' : State} {ev : Pallet.MiningInfoUpdateEvent} {now : Nat}
    (hInv : Inv st)
    (hg : ∀ w ∈ ev.offline ++ ev.recovered_to_online, GoodW st w)
    (h : Pallet.on_gk_message_received st ev now = some st') : Inv st' := by
  unfold Pallet.on_gk_message_received at h
  by_cases he : ev.is_empty
  · rw [if_pos he] at h
    injection h with h
    subst h
    exact hInv
  · rw [if_neg he] at h
    rcases h1 : Pallet.processOffline st ev.offline with _ | st1
    · simp [h1] at h
    simp only [h1] at h
    rcases h2 : Pallet.processRecovered st1 ev.recovered_to_online with _ | st2
    · simp [h2] at h
    simp only [h2] at h
    obtain ⟨hI1, htr1⟩ := Inv_processOffline ev.offline st st1 hInv
      (fun w hw => hg w (List.mem_append_left _ hw)) h1
    obtain ⟨hI2, -⟩ := Inv_processRecovered ev.recovered_to_online st1 st2 hI1
      (fun w hw => htr1 w (hg w (List.mem_append_right _ hw))) h2
    exact Inv_processSettle ev.settle st2 st' now hI2 h

/-- Every state reachable under the gatekeeper trust restriction
satisfies the full invariant. -/
theorem Inv_reachGood {st : State} (h : ReachGood st) : Inv st := by
  induction h with
  | init w cdp p => exact Inv_init w cdp p
  | next st c st' hreach hgood hstep ih =>
    cases c with
    | bind m w now =>
      simp only [step] at hstep
      injection hstep with hstep
      rcases hres : Pallet.bind st m w now with e | stOK
      · rw [hres] at hstep
        simp [exceptState] at hstep
        subst hstep
        exact ih
      · rw [hres] at hstep
        simp [exceptState] at hstep
        subst hstep
        exact Inv_bind ih hres
    | unbind m notify now =>
      rcases hres : Pallet.unbind_miner st m notify now with _ | r
      · simp [step, hres] at hstep
      · rcases r with e | stOK
        · simp [step, hres, exceptState] at hstep
          subst hstep
          exact ih
        · simp [step, hres, exceptState] at hstep
          subst hstep
          exact Inv_unbind ih hres
    | start m stake now =>
      rcases hres : Pallet.start_mining st m stake now with _ | r
      · simp [step, hres] at hstep
      · rcases r with e | stOK
        · simp [step, hres, exceptState] at hstep
          subst hstep
          exact ih
        · simp [step, hres, exceptState] at hstep
          subst hstep
          exact Inv_start ih hres
    | stop m now =>
      simp only [step] at hstep
      injection hstep with hstep
      rcases hres : Pallet.stop_mining st m now with e | stOK
      · rw [hres] at hstep
        simp [exceptState] at hstep
        subst hstep
        exact ih
      · rw [hres] at hstep
        simp [exceptState] at hstep
        subst hstep
        exact Inv_stop ih hres
    | reclaim m now =>
      rcases hres : Pallet.reclaim st m now with _ | r
      · simp [step, hres] at hstep
      · rcases r with e | t
        · simp [step, hres] at hstep
          subst hstep
          exact ih
        · obtain ⟨stOK, orig, ret, sl⟩ := t
          simp [step, hres] at hstep
          subst hstep
          exact Inv_reclaim ih hres
    | gk ev now =>
      simp only [step] at hstep
      exact Inv_gk ih hgood hstep
    | heartbeat w iters now =>
      rcases hres : Pallet.on_mining_message_received st w iters now with _ | r
      · simp [step, hres] at hstep
      · rcases r with e | stOK
        · simp [step, hres, exceptState] at hstep
          subst hstep
          exact ih
        · simp [step, hres, exceptState] at hstep
          subst hstep
          exact Inv_heartbeat ih hres

/-! ## Spec-side formulas (for refinement comparisons) -/

/-- The spec's formula for the instantaneous benchmark score:
`min(floor(deltaIter × 6 / deltaTs), floor(initialScore × 12 / 10))`. -/
def specPInstant (deltaIter deltaTs initialScore : Nat) : Nat :=
  min (deltaIter * 6 / deltaTs) (initialScore * 12 / 10)

/-- The spec's challenge-threshold formula: `0` when `onlineMiners = 0`,
otherwise `(MAX_256BIT >> 24) × floor((min(targetCount, onlineMiners × 2
/ (3600 / secsPerTick)) / onlineMiners) × 2^24)`.  With `d = 3600 /
secsPerTick`, the exact rational `min(t, 2N/d) / N × 2^24` equals
`min(t·d, 2N) × 2^24 / (d·N)`, so its floor is the `Nat` division
below. -/
def specPowTarget (num_tx num_workers secs_per_block : Nat) : Nat :=
  if num_workers = 0 then 0
  else
    let d := 3600 / secs_per_block
    (2 ^ 256 - 1) / 2 ^ 24 *
      (min (num_tx * d) (2 * num_workers) * 2 ^ 24 / (d * num_workers))

/-! ## Claim C5: the accepted-update `p_instant` formula -/

/-- Claim C5, counterexample: for an accepted update from a fresh
benchmark with `updated_at = 1` and `iterations = 2^32`, the Rust
`as u32` cast truncates the raw score `2^32·6` to `0`, while the claimed
formula `min(floor(deltaIter·6/deltaTs), floor(600·12/10))` yields
`720`. -/
theorem C5_counterexample :
    (Benchmark.update ⟨0, 0, 0, 0⟩ 1 (2 ^ 32) 600).map Benchmark.p_instant = some 0
    ∧ specPInstant (2 ^ 32 - 0) (1 - 0) 600 = 720 ∧ (0 : Nat) ≠ 720 := by
  constructor
  · rfl
  · constructor
    · rfl
    · decide

/-- Claim C5 (amended): for an accepted benchmark update the new
`p_instant` equals `min(floor(deltaIter × 6 / deltaTs),
floor(initialScore × 12 / 10))` *provided* the raw values fit the
machine integers of the code (`deltaIter × 6` fits `u64`, the quotient
fits `u32` — it is truncated to 32 bits by the `as u32` cast otherwise —
and `initialScore × 12` fits `u32`); in particular, with
`initialScore = 600` and a fresh benchmark, a report at time 100 with
iterations 11000 yields `p_instant = 660`, and a subsequent report at
time 200 with iterations 26000 yields `p_instant = 720` (raw 900
capped). -/
theorem C5_p_instant_formula :
    (∀ (b : Benchmark) (t i s : Nat),
      b.updated_at < t → b.iterations < i →
      (i - b.iterations) * 6 < 2 ^ 64 →
      (i - b.iterations) * 6 / (t - b.updated_at) < 2 ^ 32 →
      s * 12 < 2 ^ 32 →
      (b.update t i s).map Benchmark.p_instant =
        some (specPInstant (i - b.iterations) (t - b.updated_at) s))
    ∧ (Benchmark.update ⟨0, 0, 0, 0⟩ 100 11000 600).map Benchmark.p_instant = some 660
    ∧ ((Benchmark.update ⟨0, 0, 0, 0⟩ 100 11000 600).bind
        fun b1 => (b1.update 200 26000 600).map Benchmark.p_instant) = some 720 := by
  refine ⟨?_, rfl, rfl⟩
  intro b t i s ht hi h6 hq hs
  have hcond : ¬(t ≤ b.updated_at ∨ i ≤ b.iterations) := by omega
  simp only [Benchmark.update, hcond, if_false, Option.map_some']
  refine congrArg some ?_
  show min ((i - b.iterations) * 6 % 2 ^ 64 / (t - b.updated_at) % 2 ^ 32)
      (s * 12 % 2 ^ 32 / 10) = _
  rw [Nat.mod_eq_of_lt h6, Nat.mod_eq_of_lt hq, Nat.mod_eq_of_lt hs]
  rfl

/-- Witness for `C5_p_instant_formula`: the general formula applied to
the first concrete scenario. -/
theorem C5_witness :
    ((0 : Nat) < 100 ∧ (0 : Nat) < 11000 ∧ (11000 - 0) * 6 < 2 ^ 64
      ∧ (11000 - 0) * 6 / (100 - 0) < 2 ^ 32 ∧ 600 * 12 < 2 ^ 32)
    ∧ (Benchmark.update ⟨0, 0, 0, 0⟩ 100 11000 600).map Benchmark.p_instant =
        some (specPInstant (11000 - 0) (100 - 0) 600) := by
  refine ⟨by decide, ?_⟩
  exact C5_p_instant_formula.1 ⟨0, 0, 0, 0⟩ 100 11000 600 (by decide) (by decide)
    (by decide) (by decide) (by decide)

/-! ## Claim C6: the challenge-threshold function -/

/-- The fixed-point pipeline of `pow_target` computes exactly the spec's
formula whenever nothing overflows: `num_workers < 2^31` (no `U32F32`
multiplication overflow) and `3600 / secs_per_block ≥ 2` (attainable
per-miner rate at most 1, so the `U256` product fits). -/
theorem pow_target_eq_spec (t N s : Nat) (hN : N ≠ 0) (hN31 : N < 2 ^ 31)
    (hd2 : 2 ≤ 3600 / s) :
    pow_target t N s = some (specPowTarget t N s) := by
  have hd0 : 0 < 3600 / s := by omega
  unfold pow_target specPowTarget
  rw [if_neg hN, if_neg (by omega : ¬ 3600 / s = 0), if_neg (by omega : ¬ 2 ^ 31 ≤ N),
    if_neg hN]
  set d := 3600 / s with hd
  dsimp only
  -- collapse the fixed-point scalings
  have hmax : N * 2 ^ 33 * 2 ^ 32 / (d * 2 ^ 32) = N * 2 ^ 33 / d :=
    Nat.mul_div_mul_right _ _ (by norm_num)
  rw [hmax]
  have hraw2 : ∀ target : Nat, target * 2 ^ 32 / (N * 2 ^ 32) = target / N :=
    fun target => Nat.mul_div_mul_right _ _ (by norm_num)
  rw [hraw2]
  -- the shifted value fits u64
  have hBle : N * 2 ^ 33 / d / N ≤ 2 ^ 32 := by
    have h1 : N * 2 ^ 33 / d / N = N * 2 ^ 33 / (d * N) := Nat.div_div_eq_div_mul ..
    have h2 : N * 2 ^ 33 / (d * N) ≤ N * 2 ^ 33 / (2 * N) := by
      refine Nat.div_le_div_left ?_ (by positivity)
      exact Nat.mul_le_mul_right N hd2
    have h3 : N * 2 ^ 33 / (2 * N) = 2 ^ 32 := by
      rw [show N * 2 ^ 33 = (2 * N) * 2 ^ 32 by ring]
      exact Nat.mul_div_cancel_left _ (by positivity)
    omega
  have hr2le : min (t * 2 ^ 32) (N * 2 ^ 33 / d) / N ≤ 2 ^ 32 := by
    calc min (t * 2 ^ 32) (N * 2 ^ 33 / d) / N ≤ N * 2 ^ 33 / d / N :=
       Nat.div_le_div_right (Nat.min_le_right _ _)
    _ ≤ 2 ^ 32 := hBle
  have hmod : min (t * 2 ^ 32) (N * 2 ^ 33 / d) / N * 2 ^ 24 % 2 ^ 64 =
      min (t * 2 ^ 32) (N * 2 ^ 33 / d) / N * 2 ^ 24 := by
    refine Nat.mod_eq_of_lt ?_
    calc min (t * 2 ^ 32) (N * 2 ^ 33 / d) / N * 2 ^ 24 ≤ 2 ^ 32 * 2 ^ 24 :=
       Nat.mul_le_mul_right _ hr2le
    _ < 2 ^ 64 := by norm_num
  rw [hmod]
  have hshift : ∀ x : Nat, x * 2 ^ 24 / 2 ^ 32 = x / 2 ^ 8 := by
    intro x
    rw [show (2 ^ 32 : Nat) = 2 ^ 8 * 2 ^ 24 by norm_num]
    exact Nat.mul_div_mul_right _ _ (by norm_num)
  rw [hshift]
  -- the code's `frac` equals the spec's `frac`
  have hfrac : min (t * 2 ^ 32) (N * 2 ^ 33 / d) / N / 2 ^ 8 =
      min (t * d) (2 * N) * 2 ^ 24 / (d * N) := by
    rcases le_total (t * d) (2 * N) with htd | htd
    · -- uncapped: the configured target is the binding constraint
      have hcode : t * 2 ^ 32 ≤ N * 2 ^ 33 / d := by
        refine (Nat.le_div_iff_mul_le (by omega)).mpr ?_
        calc t * 2 ^ 32 * d = t * d * 2 ^ 32 := by ring
        _ ≤ 2 * N * 2 ^ 32 := Nat.mul_le_mul_right _ htd
        _ = N * 2 ^ 33 := by ring
      rw [min_eq_left hcode, min_eq_left htd]
      rw [Nat.div_div_eq_div_mul]
      rw [show t * 2 ^ 32 = t * 2 ^ 24 * 2 ^ 8 by ring]
      rw [Nat.mul_div_mul_right _ _ (by norm_num : (0:Nat) < 2 ^ 8)]
      rw [show t * d * 2 ^ 24 = d * (t * 2 ^ 24) by ring]
      rw [show d * N = d * N by rfl,
        Nat.mul_div_mul_left _ _ (by omega : (0:Nat) < d)]
    · -- capped: the per-miner rate limit is the binding constraint
      have hcode : N * 2 ^ 33 / d ≤ t * 2 ^ 32 := by
        have h1 : N * 2 ^ 33 ≤ t * 2 ^ 32 * d := by
          calc N * 2 ^ 33 = 2 * N * 2 ^ 32 := by ring
          _ ≤ t * d * 2 ^ 32 := Nat.mul_le_mul_right _ htd
          _ = t * 2 ^ 32 * d := by ring
        calc N * 2 ^ 33 / d ≤ t * 2 ^ 32 * d / d := Nat.div_le_div_right h1
        _ = t * 2 ^ 32 := Nat.mul_div_cancel _ (by omega)
      rw [min_eq_right hcode, min_eq_right htd]
      rw [Nat.div_div_eq_div_mul, Nat.div_div_eq_div_mul]
      have e1 : N * 2 ^ 33 / (d * (N * 2 ^ 8)) = 2 ^ 25 / d := by
        rw [show d * (N * 2 ^ 8) = N * 2 ^ 8 * d by ring,
          show N * 2 ^ 33 = N * 2 ^ 8 * 2 ^ 25 by ring]
        exact Nat.mul_div_mul_left _ _ (by positivity)
      have e2 : 2 * N * 2 ^ 24 / (d * N) = 2 ^ 25 / d := by
        rw [show 2 * N * 2 ^ 24 = N * 2 ^ 25 by ring,
          show d * N = N * d by ring]
        exact Nat.mul_div_mul_left _ _ (by omega)
      rw [e1, e2]
  rw [hfrac]
  -- no `U256` overflow
  have hfle : min (t * d) (2 * N) * 2 ^ 24 / (d * N) ≤ 2 ^ 24 := by
    calc min (t * d) (2 * N) * 2 ^ 24 / (d * N) ≤ 2 * N * 2 ^ 24 / (d * N) :=
       Nat.div_le_div_right (Nat.mul_le_mul_right _ (Nat.min_le_right _ _))
    _ ≤ 2 * N * 2 ^ 24 / (2 * N) := by
        refine Nat.div_le_div_left ?_ (by positivity)
        calc 2 * N ≤ d * N := Nat.mul_le_mul_right N hd2
        _ = d * N := rfl
    _ = 2 ^ 24 := Nat.mul_div_cancel_left _ (by positivity)
  have hbound : ¬ 2 ^ 256 ≤
      (2 ^ 256 - 1) / 2 ^ 24 * (min (t * d) (2 * N) * 2 ^ 24 / (d * N)) := by
    push_neg
    calc (2 ^ 256 - 1) / 2 ^ 24 * (min (t * d) (2 * N) * 2 ^ 24 / (d * N))
        ≤ (2 ^ 256 - 1) / 2 ^ 24 * 2 ^ 24 := Nat.mul_le_mul_left _ hfle
    _ < 2 ^ 256 := by norm_num
  rw [if_neg hbound]

/-- Claim C6: the challenge threshold is 0 with no online miners,
otherwise equals the spec's `(MAX_256BIT >> 24) × floor((min(target,
onlineMiners·2/(3600/secsPerTick)) / onlineMiners) × 2^24)` formula
(within the machine ranges of the code: `onlineMiners < 2^31` and
`3600/secsPerTick ≥ 2`), and takes the three pinned values. -/
theorem C6_pow_target :
    (∀ t s, pow_target t 0 s = some 0)
    ∧ (∀ t N s, N ≠ 0 → N < 2 ^ 31 → 2 ≤ 3600 / s →
        pow_target t N s = some (specPowTarget t N s))
    ∧ pow_target 20 0 12 = some 0
    ∧ pow_target 20 20 12 =
        some 771946525395830978497002573683960742805751636319313395421818009383503547160
    ∧ pow_target 20 200000 12 =
        some 11574228623567775471528085581038571683760509746329738253007553123311417715 := by
  refine ⟨fun t s => rfl, fun t N s hN hN31 hd2 => pow_target_eq_spec t N s hN hN31 hd2,
    rfl, by decide, by decide⟩

/-- Witness for `C6_pow_target`: the general spec-formula equation
applied at the capped concrete input. -/
theorem C6_witness :
    ((20 : Nat) ≠ 0 ∧ (20 : Nat) < 2 ^ 31 ∧ 2 ≤ 3600 / 12)
    ∧ pow_target 20 20 12 = some (specPowTarget 20 20 12) := by
  refine ⟨by decide, ?_⟩
  exact C6_pow_target.2.1 20 20 12 (by decide) (by decide) (by decide)

/-! ## Concrete fixtures -/

/-- A registry with two workers of initial score 4, confidence level 1. -/
def regW4 : Map Nat WorkerInfo := [(1, ⟨some 4, 1⟩), (2, ⟨some 4, 1⟩)]

/-- Genesis state over `regW4`, cooldown period 100. -/
def st0 : State := initState regW4 100 defaultParams

/-- A registry with one worker of initial score 600 (the benchmark-test
setup). -/
def regW600 : Map Nat WorkerInfo := [(1, ⟨some 600, 1⟩)]

def stH0 : State := initState regW600 100 defaultParams

def defaultMinerInfo : MinerInfo :=
  { state := .Ready, ve := 0, v := 0, v_updated_at := 0
    benchmark := ⟨0, 0, 0, 0⟩, cool_down_start := 0, stats := ⟨0⟩ }

/-- State after binding miner 1 to worker 1 and accepting a heartbeat
with 11000 iterations at time 100. -/
def stHB : State :=
  (run stH0 [Cmd.bind 1 1 0, Cmd.heartbeat 1 11000 100]).getD stH0

/-- State after binding miner 1 to worker 1 (score-4 registry). -/
def stBound : State := (run st0 [Cmd.bind 1 1 0]).getD st0

/-- State after bind and start (stake `10^15`): miner 1 is `MiningIdle`
and `OnlineMiners = 1`. -/
def stMid : State :=
  (run st0 [Cmd.bind 1 1 0, Cmd.start 1 (10 ^ 15) 1]).getD st0

def stMidInfo : MinerInfo := (stMid.miners.lookup 1).getD defaultMinerInfo

/-- State after bind, start and stop: miner 1 is cooling down since
time 2. -/
def stCD : State :=
  (run st0 [Cmd.bind 1 1 0, Cmd.start 1 (10 ^ 15) 1, Cmd.stop 1 2]).getD st0

def stCDinfo : MinerInfo := (stCD.miners.lookup 1).getD defaultMinerInfo

/-- A gatekeeper batch declaring worker 1 offline. -/
def evOffline1 : Pallet.MiningInfoUpdateEvent := ⟨[1], [], []⟩

/-- State after binding miner 1 (still `Ready`, never started) and then
processing a gatekeeper batch that declares its worker offline: the
record becomes `MiningUnresponsive` while `OnlineMiners` stays 0. -/
def stGK : State := (run st0 [Cmd.bind 1 1 0, Cmd.gk evOffline1 1]).getD st0

/-! ## Claim C1: stale heartbeat reports -/

/-- Claim C1, counterexample: in the reachable state `stHB` the worker 1
is bound and its miner's benchmark has `updated_at = 100`,
`iterations = 11000`.  A heartbeat at time 200 repeating
`iterations = 11000` (not strictly greater) is *not* discarded with the
record unchanged: the handler's `expect` on the rejected
`Benchmark::update` aborts the execution (`none`), so processing does
not continue unaffected. -/
theorem C1_counterexample :
    run stH0 [Cmd.bind 1 1 0, Cmd.heartbeat 1 11000 100] = some stHB
    ∧ stHB.workerBindings.lookup 1 = some 1
    ∧ (stHB.miners.lookup 1).map (fun i =>
        (i.benchmark.updated_at, i.benchmark.iterations)) = some (100, 11000)
    ∧ Pallet.on_mining_message_received stHB 1 11000 200 = none
    ∧ step stHB (Cmd.heartbeat 1 11000 200) = none := by
  refine ⟨rfl, by decide, by decide, by decide, by decide⟩

/-- Claim C1 (amended): `Benchmark::update` rejects a report whose
timestamp or iteration count is not strictly greater than the previous
one, with no mutation; the heartbeat handler discards-and-continues only
a report from an *unbound* worker (rejecting it with `WorkerNotBound`
and leaving all state unchanged), while for a bound worker it asserts
that the update must succeed, so a stale or duplicate report from a
bound worker aborts the surrounding processing (panic) instead of being
discarded. -/
theorem C1_stale_report (st : State) (worker iterations now : Nat) :
    (∀ (b : Benchmark) (s : Nat),
      now ≤ b.updated_at ∨ iterations ≤ b.iterations →
      b.update now iterations s = none)
    ∧ (st.workerBindings.lookup worker = none →
      Pallet.on_mining_message_received st worker iterations now =
        some (.error .WorkerNotBound)
      ∧ step st (Cmd.heartbeat worker iterations now) = some st)
    ∧ (∀ miner info score ci,
      st.workerBindings.lookup worker = some miner →
      st.miners.lookup miner = some info →
      st.workers.lookup worker = some ⟨some score, ci⟩ →
      now ≤ info.benchmark.updated_at ∨ iterations ≤ info.benchmark.iterations →
      Pallet.on_mining_message_received st worker iterations now = none) := by
  refine ⟨?_, ?_, ?_⟩
  · intro b s h
    simp [Benchmark.update, h]
  · intro h
    constructor
    · simp [Pallet.on_mining_message_received, Pallet.ensure_worker_bound, h]
    · simp [step, Pallet.on_mining_message_received, Pallet.ensure_worker_bound, h,
        exceptState]
  · intro miner info score ci hw hm hreg hstale
    simp [Pallet.on_mining_message_received, Pallet.ensure_worker_bound, hw, hm,
      hreg, Benchmark.update, hstale]

/-- Witness for `C1_stale_report`: in the genesis state no worker is
bound, so a heartbeat from worker 1 is rejected with `WorkerNotBound`
and the state is unchanged. -/
theorem C1_witness :
    (stH0.workerBindings.lookup 1 = none)
    ∧ (Pallet.on_mining_message_received stH0 1 11000 100 =
        some (.error .WorkerNotBound)
      ∧ step stH0 (Cmd.heartbeat 1 11000 100) = some stH0) :=
  ⟨by decide, (C1_stale_report stH0 1 11000 100).2.1 (by decide)⟩

/-! ## Claim C4: bind error handling -/

/-- Claim C4: `bind` fails `WorkerNotRegistered` for an unknown worker,
`BenchmarkMissing` for a registered worker without an initial score,
`DuplicateBoundMiner` when either side is already bound (for a
registered, benchmarked worker), and every failing call leaves the state
unchanged (all preconditions are validated before any write). -/
theorem C4_bind (st : State) (m w now : Nat) :
    (st.workers.lookup w = none →
      Pallet.bind st m w now = .error .WorkerNotRegistered)
    ∧ (∀ wi, st.workers.lookup w = some wi → wi.initial_score = none →
      Pallet.bind st m w now = .error .BenchmarkMissing)
    ∧ (∀ wi p, st.workers.lookup w = some wi → wi.initial_score = some p →
      ((st.minerBindings.lookup m).isSome ∨ (st.workerBindings.lookup w).isSome) →
      Pallet.bind st m w now = .error .DuplicateBoundMiner)
    ∧ (∀ e, Pallet.bind st m w now = .error e →
      step st (Cmd.bind m w now) = some st) := by
  refine ⟨?_, ?_, ?_, ?_⟩
  · intro h
    simp [Pallet.bind, h]
  · intro wi hw hs
    simp [Pallet.bind, hw, hs]
  · intro wi p hw hs hdup
    by_cases hm : (st.minerBindings.lookup m).isSome
    · simp [Pallet.bind, hw, hs, hm]
    · have hwb : (st.workerBindings.lookup w).isSome := by tauto
      simp [Pallet.bind, hw, hs, hm, hwb]
  · intro e h
    simp [step, h, exceptState]

/-- Witness for `C4_bind`: binding to the unregistered worker 100 in the
genesis state fails with `WorkerNotRegistered` and changes nothing. -/
theorem C4_witness :
    (st0.workers.lookup 100 = none
      ∧ Pallet.bind st0 5 100 0 = .error .WorkerNotRegistered)
    ∧ step st0 (Cmd.bind 5 100 0) = some st0 := by
  have h1 := (C4_bind st0 5 100 0).1 (by decide)
  exact ⟨⟨by decide, h1⟩, (C4_bind st0 5 100 0).2.2.2 _ h1⟩

/-! ## Claim C3: the Stake / non-Ready invariant -/

/-- Claim C3: the sequence bind(1,w1); start_mining(1, 10^15);
unbind(1); bind(1,w2) is accepted end to end, and leaves `Stakes[1]`
populated with the full original stake while the (re-created) miner
record is in `Ready` state — the code violates the claimed invariant
(and its own storage doc, which says a stake entry exists only for
mining and cooling-down miners): the unbind/re-bind path never removes
the Stake entry. -/
theorem C3_stale_stake :
    ((run st0 [Cmd.bind 1 1 0, Cmd.start 1 (10 ^ 15) 1,
        Cmd.unbind 1 false 2, Cmd.bind 1 2 3]).map fun st =>
      (st.stakes.lookup 1, (st.miners.lookup 1).map MinerInfo.state)) =
    some (some (10 ^ 15), some MinerState.Ready) := by
  decide

/-! ## Claim C9: stop_mining -/

/-- Claim C9, counterexample: `stGK` is reachable (bind, then a
gatekeeper offline batch), its miner 1 is bound and
`MiningUnresponsive`, yet `OnlineMinerCount = 0`; `stop_mining`
succeeds but the unchecked `u32` subtraction wraps the counter to
`2^32 − 1` instead of decrementing it by exactly 1. -/
theorem C9_counterexample :
    run st0 [Cmd.bind 1 1 0, Cmd.gk evOffline1 1] = some stGK
    ∧ stGK.minerBindings.lookup 1 = some 1
    ∧ (stGK.miners.lookup 1).map MinerInfo.state = some MinerState.MiningUnresponsive
    ∧ stGK.onlineMiners = 0
    ∧ (Pallet.stop_mining stGK 1 5).toOption.map State.onlineMiners =
        some (2 ^ 32 - 1)
    ∧ ¬ ((2 ^ 32 - 1) + 1 = stGK.onlineMiners) := by
  refine ⟨rfl, by decide, by decide, by decide, by decide, by decide⟩

/-- Claim C9 (amended): for a bound miner whose state is neither `Ready`
nor `MiningCoolingDown`, *provided `OnlineMinerCount` is positive* (and
in its `u32` range), `stop_mining` succeeds, decrements the counter by
exactly one, sets the state to `MiningCoolingDown` and `cool_down_start`
to the current time; for a bound miner in `Ready` or
`MiningCoolingDown` it fails with `MinerNotMining` and mutates
nothing. -/
theorem C9_stop_mining (st : State) (m now w : Nat) (info : MinerInfo) :
    (st.minerBindings.lookup m = some w →
      st.miners.lookup m = some info →
      info.state ≠ .Ready → info.state ≠ .MiningCoolingDown →
      1 ≤ st.onlineMiners → st.onlineMiners < 2 ^ 32 →
      Pallet.stop_mining st m now = .ok { st with
        miners := st.miners.insert m
          { info with state := .MiningCoolingDown, cool_down_start := now }
        onlineMiners := st.onlineMiners - 1 })
    ∧ (st.minerBindings.lookup m = some w →
      st.miners.lookup m = some info →
      info.state = .Ready ∨ info.state = .MiningCoolingDown →
      Pallet.stop_mining st m now = .error .MinerNotMining
      ∧ step st (Cmd.stop m now) = some st) := by
  constructor
  · intro hb hr h1 h2 hge hlt
    simp [Pallet.stop_mining, hb, hr, not_or.mpr ⟨h1, h2⟩, State.mk.injEq]
    all_goals omega
  · intro hb hr h
    have : Pallet.stop_mining st m now = .error .MinerNotMining := by
      simp [Pallet.stop_mining, hb, hr, h]
    exact ⟨this, by simp [step, this, exceptState]⟩

/-- Witness for `C9_stop_mining`: stopping the `MiningIdle` miner of
`stMid` (where `OnlineMinerCount = 1`). -/
theorem C9_witness :
    (stMid.minerBindings.lookup 1 = some 1
      ∧ stMid.miners.lookup 1 = some stMidInfo
      ∧ stMidInfo.state ≠ .Ready ∧ stMidInfo.state ≠ .MiningCoolingDown
      ∧ 1 ≤ stMid.onlineMiners ∧ stMid.onlineMiners < 2 ^ 32)
    ∧ Pallet.stop_mining stMid 1 7 = .ok { stMid with
        miners := stMid.miners.insert 1
          { stMidInfo with state := .MiningCoolingDown, cool_down_start := 7 }
        onlineMiners := stMid.onlineMiners - 1 } :=
  ⟨by decide, (C9_stop_mining stMid 1 7 1 stMidInfo).1 (by decide) (by decide)
    (by decide) (by decide) (by decide) (by decide)⟩

/-! ## Claim C10: the unchecked `*v -= 1` in stop_mining -/

/-- Claim C10: the code comment asserts `// v cannot be 0` at the
decrement, but in the reachable state `stGK` (bind of a `Ready` miner
followed by a gatekeeper offline batch naming its worker) the miner is
bound and `MiningUnresponsive` — so `stop_mining`'s preconditions hold
and the decrement is reached — while `OnlineMinerCount = 0`: the
unchecked subtraction underflows (wrapping to `2^32 − 1`). -/
theorem C10_underflow :
    run st0 [Cmd.bind 1 1 0, Cmd.gk evOffline1 1] = some stGK
    ∧ stGK.minerBindings.lookup 1 = some 1
    ∧ (stGK.miners.lookup 1).map MinerInfo.state = some MinerState.MiningUnresponsive
    ∧ ¬ 0 < stGK.onlineMiners
    ∧ (Pallet.stop_mining stGK 1 5).toOption.map State.onlineMiners =
        some (2 ^ 32 - 1) := by
  refine ⟨rfl, by decide, by decide, by decide, by decide⟩

/-! ## Claim C2: the OnlineMiners invariant -/

/-- Claim C2, counterexample: binding a miner and then processing a
gatekeeper batch that lists its (still `Ready`) worker as offline is a
sequence of operations after which exactly one record is in a mining
state (`MiningUnresponsive`) while `OnlineMinerCount` is 0. -/
theorem C2_counterexample :
    run st0 [Cmd.bind 1 1 0, Cmd.gk evOffline1 1] = some stGK
    ∧ countMining stGK.miners = 1
    ∧ stGK.onlineMiners = 0
    ∧ stGK.onlineMiners ≠ countMining stGK.miners := by
  refine ⟨rfl, by decide, by decide, by decide⟩

/-- Claim C2 (amended): in every state reachable by operations in which
each gatekeeper `offline`/`recovered_to_online` entry names a worker
that is unbound or whose bound miner is already in a mining state,
`OnlineMinerCount` equals the number of records in state `MiningIdle`,
`MiningActive` or `MiningUnresponsive`, reduced modulo `2^32` (the
counter's `u32` width) — so exactly whenever that number is below
`2^32`.  (Without the gatekeeper restriction the invariant is false:
see the counterexample.) -/
theorem C2_online_count (st : State) (h : ReachGood st) :
    st.onlineMiners = countMining st.miners % 2 ^ 32
    ∧ (countMining st.miners < 2 ^ 32 →
        st.onlineMiners = countMining st.miners) := by
  have hI := Inv_reachGood h
  exact ⟨hI.count, fun hlt => by rw [hI.count, Nat.mod_eq_of_lt hlt]⟩

/-- Witness for `C2_online_count`: the genesis state. -/
theorem C2_witness :
    (initState [] 7 defaultParams).onlineMiners =
      countMining (initState [] 7 defaultParams).miners % 2 ^ 32
    ∧ (countMining (initState [] 7 defaultParams).miners < 2 ^ 32 →
        (initState [] 7 defaultParams).onlineMiners =
          countMining (initState [] 7 defaultParams).miners) :=
  C2_online_count (initState [] 7 defaultParams) (ReachGood.init [] 7 defaultParams)

/-! ## Claim C7: start_mining stake guards -/

/-- Claim C7: for a bound miner in `Ready` state whose worker has
initial score `p`, `start_mining` fails `InsufficientStake` exactly when
`stake < minimal_stake(p)` (with `minimal_stake(p) = k × sqrt(p)`,
truncating fixed point), fails `TooMuchStake` exactly when the stake is
sufficient but the computed `ve` exceeds `v_max`, and a failing call
mutates nothing. -/
theorem C7_start_mining (st : State) (m stake now w p ci : Nat) (info : MinerInfo)
    (hb : st.minerBindings.lookup m = some w)
    (hr : st.miners.lookup m = some info)
    (hready : info.state = .Ready)
    (hw : st.workers.lookup w = some ⟨some p, ci⟩) :
    (Pallet.start_mining st m stake now = some (.error .InsufficientStake) ↔
      stake < Tokenomic.minimal_stake st.tokenomicParams p)
    ∧ (Pallet.start_mining st m stake now = some (.error .TooMuchStake) ↔
      Tokenomic.minimal_stake st.tokenomicParams p ≤ stake ∧
        Tokenomic.v_max st.tokenomicParams <
          Tokenomic.ve st.tokenomicParams stake p ci)
    ∧ (∀ e, Pallet.start_mining st m stake now = some (.error e) →
      step st (Cmd.start m stake now) = some st) := by
  have hred : Pallet.start_mining st m stake now =
      (if stake < Tokenomic.minimal_stake st.tokenomicParams p then
        some (.error .InsufficientStake)
      else if Tokenomic.v_max st.tokenomicParams <
          Tokenomic.ve st.tokenomicParams stake p ci then
        some (.error .TooMuchStake)
      else
        some (.ok { st with
          stakes := st.stakes.insert m stake
          miners := st.miners.insert m
            { info with
              state := .MiningIdle
              ve := Tokenomic.ve st.tokenomicParams stake p ci
              v := Tokenomic.ve st.tokenomicParams stake p ci
              v_updated_at := now }
          onlineMiners := (st.onlineMiners + 1) % 2 ^ 32
          nextSessionId := (st.nextSessionId + 1) % 2 ^ 32 })) := by
    simp [Pallet.start_mining, hb, hr, hready, hw]
  refine ⟨?_, ?_, ?_⟩
  · rw [hred]
    by_cases h1 : stake < Tokenomic.minimal_stake st.tokenomicParams p
    · simp [h1]
    · by_cases h2 : Tokenomic.v_max st.tokenomicParams <
        Tokenomic.ve st.tokenomicParams stake p ci
      · simp [h1, h2]
      · simp [h1, h2]
  · rw [hred]
    by_cases h1 : stake < Tokenomic.minimal_stake st.tokenomicParams p
    · simp [h1, not_le.mpr h1]
    · by_cases h2 : Tokenomic.v_max st.tokenomicParams <
        Tokenomic.ve st.tokenomicParams stake p ci
      · simp [h1, h2, not_lt.mp h1]
      · simp [h1, h2]
  · intro e he
    rw [hred] at he
    by_cases h1 : stake < Tokenomic.minimal_stake st.tokenomicParams p
    · simp [step, hred, h1, exceptState]
    · by_cases h2 : Tokenomic.v_max st.tokenomicParams <
        Tokenomic.ve st.tokenomicParams stake p ci
      · simp [step, hred, h1, h2, exceptState]
      · rw [if_neg h1, if_neg h2] at he
        simp at he

/-- Witness for `C7_start_mining`: in `stBound` (miner 1 bound to the
score-4 worker, `minimal_stake = 200·10^12`) a stake of 5 is rejected
exactly because it is below the minimal stake. -/
theorem C7_witness :
    (stBound.minerBindings.lookup 1 = some 1
      ∧ stBound.miners.lookup 1 = some defaultMinerInfo
      ∧ defaultMinerInfo.state = .Ready
      ∧ stBound.workers.lookup 1 = some ⟨some 4, 1⟩)
    ∧ (Pallet.start_mining stBound 1 5 9 = some (.error .InsufficientStake) ↔
        5 < Tokenomic.minimal_stake stBound.tokenomicParams 4) :=
  ⟨⟨by decide, by decide, by decide, by decide⟩,
    (C7_start_mining stBound 1 5 9 1 4 1 defaultMinerInfo (by decide) (by decide)
      (by decide) (by decide)).1⟩

/-! ## Claim C8: reclaim -/

/-- A truncating fixed-point rate at most 1 applied to a converted stake
never returns more than the stake. -/
theorem fromFixed_rate_le (rate orig : Nat) (h : rate ≤ fpOne) :
    fromFixed (fpMul rate (toFixed orig)) ≤ orig := by
  have h1 : fpMul rate (toFixed orig) ≤ toFixed orig := by
    unfold fpMul fpOne at *
    calc rate * toFixed orig / 2 ^ 64 ≤ 2 ^ 64 * toFixed orig / 2 ^ 64 :=
       Nat.div_le_div_right (Nat.mul_le_mul_right _ h)
    _ = toFixed orig := Nat.mul_div_cancel_left _ (by norm_num)
  have h2 : fromFixed (toFixed orig) ≤ orig := by
    unfold fromFixed toFixed
    calc orig * 2 ^ 64 / 10 ^ 12 * 10 ^ 12 / 2 ^ 64 ≤ orig * 2 ^ 64 / 2 ^ 64 :=
       Nat.div_le_div_right (Nat.div_mul_le_self _ _)
    _ = orig := Nat.mul_div_cancel _ (by norm_num)
  have h3 : fromFixed (fpMul rate (toFixed orig)) ≤ fromFixed (toFixed orig) :=
    Nat.div_le_div_right (Nat.mul_le_mul_right _ h1)
  exact le_trans h3 h2

/-- Claim C8: `reclaim` fails with `CoolDownNotReady` exactly unless the
record is `MiningCoolingDown` with `now − cool_down_start ≥
cooldownPeriod`; on success the returned amount is `min(v/ve, 1) ×
stake` in truncating fixed point, the slashed amount is the remainder
(and never negative: `returned ≤ stake`), the state is reset to `Ready`
with `cool_down_start = 0`, and the Stake entry is removed. -/
theorem C8_reclaim (st : State) (m now : Nat) (info : MinerInfo)
    (hr : st.miners.lookup m = some info)
    (hcds : info.cool_down_start ≤ now) :
    (Pallet.reclaim st m now = some (.error .CoolDownNotReady) ↔
      ¬ (info.state = .MiningCoolingDown ∧
        st.coolDownPeriod ≤ now - info.cool_down_start))
    ∧ (∀ st' orig ret sl,
      Pallet.reclaim st m now = some (.ok (st', orig, ret, sl)) →
      orig = (st.stakes.lookup m).getD 0
      ∧ ret = fromFixed (fpMul (min (fpDiv info.v info.ve) fpOne) (toFixed orig))
      ∧ sl = orig - ret
      ∧ ret ≤ orig
      ∧ st'.miners.lookup m =
          some { info with state := .Ready, cool_down_start := 0 }
      ∧ st'.stakes.lookup m = none
      ∧ st'.onlineMiners = st.onlineMiners) := by
  have hcr : (Pallet.can_reclaim st info now = true) ↔
      (info.state = .MiningCoolingDown ∧
        st.coolDownPeriod ≤ now - info.cool_down_start) := by
    simp [Pallet.can_reclaim]
  by_cases hcan : Pallet.can_reclaim st info now
  · have hcanp := hcr.mp hcan
    by_cases hz : info.ve = 0 ∨ 2 ^ 128 ≤ fpDiv info.v info.ve
    · have hres : Pallet.reclaim st m now = none := by
        simp only [Pallet.reclaim, hr]
        rw [if_neg (not_not_intro hcan), if_pos hz]
      refine ⟨by simp [hres, hcanp], ?_⟩
      intro st' orig ret sl h
      rw [hres] at h
      cases h
    · have hres : Pallet.reclaim st m now = some (.ok
          ({ st with
              miners := st.miners.insert m
                { info with state := .Ready, cool_down_start := 0 }
              stakes := st.stakes.erase m },
            (st.stakes.lookup m).getD 0,
            fromFixed (fpMul (min (fpDiv info.v info.ve) fpOne)
              (toFixed ((st.stakes.lookup m).getD 0))),
            (st.stakes.lookup m).getD 0 -
              fromFixed (fpMul (min (fpDiv info.v info.ve) fpOne)
                (toFixed ((st.stakes.lookup m).getD 0))))) := by
        simp only [Pallet.reclaim, hr]
        rw [if_neg (not_not_intro hcan), if_neg hz]
      refine ⟨by simp [hres, hcanp], ?_⟩
      intro st' orig ret sl h
      rw [hres] at h
      injection h with h
      injection h with h
      simp only [Prod.mk.injEq] at h
      obtain ⟨h1, h2, h3, h4⟩ := h
      subst h1 h2 h3 h4
      refine ⟨rfl, rfl, rfl, fromFixed_rate_le _ _ (min_le_right _ _),
        Map.lookup_insert_self .., Map.lookup_erase_self .., rfl⟩
  · have hres : Pallet.reclaim st m now = some (.error .CoolDownNotReady) := by
      simp only [Pallet.reclaim, hr]
      rw [if_pos hcan]
    constructor
    · simp only [hres, true_iff]
      intro hc
      exact hcan (hcr.mpr hc)
    · intro st' orig ret sl h
      rw [hres] at h
      cases h

/-- Witness for `C8_reclaim`: the cooled-down miner of `stCD` reclaims
at time 200 (period 100, `cool_down_start = 2`), so the guard iff holds
with both sides true. -/
theorem C8_witness :
    (stCD.miners.lookup 1 = some stCDinfo ∧ stCDinfo.cool_down_start ≤ 200)
    ∧ (Pallet.reclaim stCD 1 200 = some (.error .CoolDownNotReady) ↔
      ¬ (stCDinfo.state = .MiningCoolingDown ∧
        stCD.coolDownPeriod ≤ 200 - stCDinfo.cool_down_start)) :=
  ⟨⟨by decide, by decide⟩, (C8_reclaim stCD 1 200 stCDinfo (by decide) (by decide)).1⟩

end PhalaMining
